import Mathlib

/-!
Verification of the redux-cofx middleware (src/index.ts).

The source is untyped JavaScript/TypeScript; each component below is a shallow
embedding of one source function, with types specialized to what the component
manipulates.  Opaque JS values (function identities, argument values, rejection
reasons) are modelled as `Nat` identifiers or `String` tokens.  Stateful code
(the `EventEmitter` class and the middleware's dispatch pipeline) is modelled by
explicit state passing; calls to `dispatch`, `next` and the external task runner
are recorded in an event trace, and promise settlement is an `Except` value.
-/

namespace ReduxCofx

/-- Action-type constant (src/index.ts line 148). -/
def EFFECT : String := "@@redux-cofx/EFFECT"

/-- Action-type constant (src/index.ts line 190). -/
def BATCH : String := "@@redux-cofx/BATCH"

/-- Action-type constant (src/index.ts line 214). -/
def BATCH_ACTIONS : String := "@@redux-cofx/BATCH_ACTIONS"

/-- The standardized error action produced by `error` (lines 142-146). -/
structure ErrAction where
  type : String
  payload : String
  deriving DecidableEq, Repr

/-- `const error = (payload) => ({type: '@@redux-cofx/ERROR', payload})`
(src/index.ts lines 143-146). -/
def error (payload : String) : ErrAction :=
  { type := "@@redux-cofx/ERROR", payload := payload }

/-- The `{fn, args?, cancel?}` payload of a create-effect action
(interface `EffectObj` / `CreateEffect.payload`, lines 131-135, 149-152).
`args` and `cancel` are optional fields of the JS object; `fn` is a function
identity, `cancel` a promise identity. -/
structure EffObj (F A : Type) where
  fn : F
  args : Option (List A)
  cancel : Option Nat
  deriving DecidableEq, Repr

/-- A create-effect action `{type: EFFECT, payload}` (lines 149-152). -/
structure CreateEffect (F A : Type) where
  type : String
  payload : EffObj F A
  deriving DecidableEq, Repr

/-- The first argument of `createEffect` is either a function or a plain
`EffectObj` object; `isObject(val)` (line 188) distinguishes the two
(a function's constructor is `Function`, not `Object`). -/
inductive CEArg (F A : Type) where
  | func (f : F)
  | obj (o : EffObj F A)
  deriving DecidableEq, Repr

/-- `createEffect(val, ...args)` (src/index.ts lines 154-171): when `val` is a
plain object its fields are spread into the payload (the rest arguments are
ignored); otherwise the payload is `{fn: val, args}` with the rest-argument
array (and no `cancel` field). -/
def createEffect {F A : Type} : CEArg F A → List A → CreateEffect F A
  | CEArg.obj o, _ => { type := EFFECT, payload := o }
  | CEArg.func f, args => { type := EFFECT, payload := { fn := f, args := some args, cancel := none } }

/-! ## EventEmitter (src/index.ts lines 299-335)

A listener callback in the source is an arbitrary JS function.  The only
callbacks this code base installs are the resolve-only callbacks of
`takeEffect` (lines 262-272), but to settle re-entrancy claims the model lets a
callback body perform further synchronous `sub` calls.  A callback is a pair of
a `Nat` identity and a `CbBody`; invoking it logs `(identity, data)` and runs
the body.  `emit` iterates a snapshot of the listener array: JS
`Array.prototype.forEach` fixes the range of visited elements before the first
call, the only in-iteration mutations possible here are `push` (appends beyond
that range) and `unsubType` (replaces the array reference wholesale), so the
snapshot model is exact. -/

/-- Body of a listener callback: either do nothing beyond being invoked
(`done`, e.g. `takeEffect`'s resolve callback), or synchronously subscribe
another callback `(id, body)` for type `t` and continue (`subThen`). -/
inductive CbBody where
  | done
  | subThen (t : String) (id : Nat) (body : CbBody) (rest : CbBody)
  deriving DecidableEq, Repr

/-- A listener callback: identity paired with its body. -/
abbrev Cb := Nat × CbBody

/-- `listeners: Events = {}` — the registry, an association list from action
type to the ordered array of callbacks (class field, line 304).
`hasOwnProperty` (line 333) is key presence, which is distinct from the
entry being the empty array (after `unsubType` the key remains). -/
abbrev EventEmitter := List (String × List Cb)

namespace EventEmitter

/-- The freshly constructed emitter (line 306): no keys. -/
def empty : EventEmitter := []

/-- `has(actionType)` (lines 332-334): `this.listeners.hasOwnProperty(actionType)`. -/
def has : EventEmitter → String → Bool
  | [], _ => false
  | e :: rest, t => e.1 = t || has rest t

/-- The callback array stored under a key, `[]` when the key is absent. -/
def getListeners : EventEmitter → String → List Cb
  | [], _ => []
  | e :: rest, t => if e.1 = t then e.2 else getListeners rest t

/-- `sub(actionType, fn)` (lines 308-314): create the entry if absent, then
push the callback at the end of the array. -/
def sub : EventEmitter → String → Cb → EventEmitter
  | [], t, c => [(t, [c])]
  | e :: rest, t, c =>
    if e.1 = t then (e.1, e.2 ++ [c]) :: rest else e :: sub rest t c

/-- `unsubType(actionType)` (lines 316-321): if the key is absent do nothing,
else replace the array with a fresh empty one. -/
def unsubType : EventEmitter → String → EventEmitter
  | [], _ => []
  | e :: rest, t =>
    if e.1 = t then (e.1, []) :: rest else e :: unsubType rest t

/-- Run a callback body: each `subThen` performs `sub` on the current state. -/
def runBody : CbBody → EventEmitter → EventEmitter
  | CbBody.done, st => st
  | CbBody.subThen t id b rest, st => runBody rest (sub st t (id, b))

/-- `cbs.forEach((cb) => cb(data))` over a snapshot of the array: invoke each
callback in order, logging `(identity, data)` and threading the state through
the bodies. -/
def runCbs {α : Type} (data : α) : List Cb → EventEmitter → EventEmitter × List (Nat × α)
  | [], st => (st, [])
  | c :: cs, st =>
    let st1 := runBody c.2 st
    let r := runCbs data cs st1
    (r.1, (c.1, data) :: r.2)

/-- `emit(actionType, data)` (lines 323-330): if the key is absent return;
else invoke every callback of the current array in order with `data`, then
`unsubType(actionType)`.  Returns the new state and the invocation log. -/
def emit {α : Type} (st : EventEmitter) (t : String) (data : α) :
    EventEmitter × List (Nat × α) :=
  if st.has t then
    let r := runCbs data (st.getListeners t) st
    (unsubType r.1 t, r.2)
  else (st, [])

end EventEmitter

/-! ## Middleware (src/index.ts lines 337-361)

One call of the innermost handler `(action) => {...}` returned by
`createMiddleware(extraArg)`.  The external task runner (`factory`/`task` from
cofx) is an oracle mapping the submitted `{fn, args, cancel}` to the settled
outcome of running `fn` (rejection reason or resolved value); the actions a
running task dispatches itself are outside this layer.  Every externally
visible step of the handler — waking a listener, forwarding to `next`,
submitting to the task runner, dispatching the error action from the `catch`
handler — is recorded as an `MEv` trace event. -/

/-- An action as the middleware sees it.  `payload` is only read when
`type = EFFECT` (line 352); `data` stands for whatever other fields a plain
action carries, so distinct actions stay distinguishable. -/
structure MAction where
  type : String
  payload : EffObj Nat String
  data : String
  deriving DecidableEq, Repr

/-- Trace events of one handler call. -/
inductive MEv where
  | wake (id : Nat) (a : MAction)
  | fwd (a : Option MAction)
  | submit (fn : Nat) (args : List String) (cancel : Option Nat)
  | disp (a : ErrAction)
  deriving DecidableEq, Repr

/-- What the handler call returns: the value of `next(action)` for non-effect
actions, or the promise of the task run (settled per the oracle, after the
`catch` clause re-raised any rejection). -/
inductive MRes where
  | fromNext
  | promise (r : Except String String)

/-- Lines 344-346: `if (action && action.type && emitter.has(action.type))
emitter.emit(action.type, action)`.  `action.type` is truthy iff it is a
nonempty string.  Returns the updated emitter and the wake events. -/
def wakePhase (st : EventEmitter) (action : Option MAction) :
    EventEmitter × List MEv :=
  match action with
  | some a =>
    if a.type ≠ "" ∧ st.has a.type = true then
      let r := st.emit a.type a
      (r.1, r.2.map (fun p => MEv.wake p.1 p.2))
    else (st, [])
  | none => (st, [])

/-- Lines 348-358: `if (!action || action.type !== EFFECT) return next(action);`
then destructure `{fn, args = [], cancel}` and run
`task({fn, args: [...args, extraArg], cancel}).catch(err => {dispatch(error(err)); throw err})`. -/
def handlePhase (extraArg : String)
    (task : Nat → List String → Option Nat → Except String String)
    (action : Option MAction) : List MEv × MRes :=
  match action with
  | none => ([MEv.fwd none], MRes.fromNext)
  | some a =>
    if a.type = EFFECT then
      let sent := a.payload.args.getD [] ++ [extraArg]
      match task a.payload.fn sent a.payload.cancel with
      | Except.error err =>
        ([MEv.submit a.payload.fn sent a.payload.cancel, MEv.disp (error err)],
         MRes.promise (Except.error err))
      | Except.ok v =>
        ([MEv.submit a.payload.fn sent a.payload.cancel], MRes.promise (Except.ok v))
    else ([MEv.fwd (some a)], MRes.fromNext)

/-- One call of the middleware's action handler (lines 343-359): the wake step
runs first, then the forward-or-run step on the same action. -/
def actionHandler (extraArg : String)
    (task : Nat → List String → Option Nat → Except String String)
    (st : EventEmitter) (action : Option MAction) :
    EventEmitter × List MEv × MRes :=
  let w := wakePhase st action
  let h := handlePhase extraArg task action
  (w.1, w.2 ++ h.1, h.2)

/-- A sequence of store dispatches, threading the emitter state and
concatenating the traces. -/
def dispatchSeq (extraArg : String)
    (task : Nat → List String → Option Nat → Except String String) :
    EventEmitter → List (Option MAction) → EventEmitter × List MEv
  | st, [] => (st, [])
  | st, a :: rest =>
    let out := actionHandler extraArg task st a
    let r := dispatchSeq extraArg task out.1 rest
    (r.1, out.2.1 ++ r.2)

/-- `takeEffect({actionType}, emitter)` (lines 262-272): subscribes a one-shot
callback that only resolves the returned promise with the received action and
performs no further subscriptions — body `CbBody.done`.  `id` is the identity
of that callback; the promise's resolution value is the first action the wake
events deliver to `id`. -/
def takeEffect (st : EventEmitter) (actionType : String) (id : Nat) : EventEmitter :=
  st.sub actionType (id, CbBody.done)

/-- The action delivered by a wake event for callback `id`, if any. -/
def wakeData (id : Nat) : MEv → Option MAction
  | MEv.wake i a => if i == id then some a else none
  | _ => none

/-- All actions delivered to callback `id` by a trace, in order. -/
def wakesOf (id : Nat) (evs : List MEv) : List MAction :=
  evs.filterMap (wakeData id)

/-- Event classifiers for trace statements. -/
def isWake : MEv → Bool
  | MEv.wake _ _ => true
  | _ => false

def isDisp : MEv → Bool
  | MEv.disp _ => true
  | _ => false

def isSubmit : MEv → Bool
  | MEv.submit _ _ _ => true
  | _ => false

/-- First dispatched action of type `T` in a dispatch list. -/
def firstOfType (T : String) : List (Option MAction) → Option MAction
  | [] => none
  | none :: rest => firstOfType T rest
  | some a :: rest => if a.type = T then some a else firstOfType T rest

/-- `id` occurs nowhere in a callback body (neither as a subscribed identity
nor inside a nested body). -/
def CbBody.hasId (id : Nat) : CbBody → Bool
  | CbBody.done => false
  | CbBody.subThen _ j b rest => j == id || b.hasId id || rest.hasId id

/-- A callback is free of `id`: its own identity differs and its body never
subscribes `id`. -/
def cbFree (id : Nat) (c : Cb) : Bool :=
  !(c.1 == id) && !(c.2.hasId id)

/-- A callback array is free of `id`. -/
def entFree (id : Nat) (l : List Cb) : Bool :=
  l.all (cbFree id)

/-- `id` occurs nowhere in the emitter (decidable over the concrete registry). -/
def IdFree (id : Nat) (st : EventEmitter) : Prop :=
  ∀ e ∈ st, entFree id e.2 = true

/-- `id` occurs in no callback array the registry can return. -/
def GFree (id : Nat) (st : EventEmitter) : Prop :=
  ∀ t, entFree id (st.getListeners t) = true

/-- `id` is registered exactly once, for type `T`, with the resolve-only body,
and occurs nowhere else (not even inside other callbacks' bodies). -/
def GReg (id : Nat) (T : String) (st : EventEmitter) : Prop :=
  (st.getListeners T).filter (fun c => c.1 == id) = [(id, CbBody.done)] ∧
  (∀ c ∈ st.getListeners T, c.2.hasId id = false) ∧
  (∀ t, t ≠ T → entFree id (st.getListeners t) = true)

/-- Every callback array grew only by callbacks free of `id` (how re-entrant
`sub` calls during callback execution affect the registry). -/
def Grows (id : Nat) (st st2 : EventEmitter) : Prop :=
  ∀ t, ∃ ex, st2.getListeners t = st.getListeners t ++ ex ∧ entFree id ex = true

/-! ## batchEffect (src/index.ts lines 196-212) -/

/-- An action as the batch handler sees it: only `type` is inspected. -/
structure BAct where
  type : String
  data : String
  deriving DecidableEq, Repr

/-- The first filter predicate (lines 197-199):
`(action) => !action || action.type !== EFFECT`.  A `none` entry models a
`null`/`undefined` element of the input array (falsy, hence kept). -/
def isNormalEntry : Option BAct → Bool
  | none => true
  | some a => a.type ≠ EFFECT

/-- The second filter predicate (lines 205-207):
`(action) => action && action.type === EFFECT`. -/
def isEffectEntry : Option BAct → Bool
  | none => false
  | some a => a.type = EFFECT

/-- The dispatch calls `batchEffect` makes, in order: first the single bundle
action `{type: BATCH, payload: normalActions}`, then each effect action. -/
inductive BOut where
  | bundle (payload : List (Option BAct))
  | act (a : Option BAct)
  deriving DecidableEq, Repr

/-- `batchEffect({actions}, dispatch)` (lines 196-212): filter the non-effect
entries and dispatch them as one bundle action, then filter the effect entries
and dispatch each through the normal channel; finally return
`Promise.resolve()` — the handler resolves once these dispatch calls are made,
without awaiting anything the dispatched effects start.  The returned list is
the sequence of dispatch calls. -/
def batchEffect (actions : List (Option BAct)) : List BOut :=
  let normalActions := actions.filter isNormalEntry
  let effectActions := actions.filter isEffectEntry
  BOut.bundle normalActions :: effectActions.map BOut.act

/-! ## enableBatching and batchActions (src/index.ts lines 214-218, 363-371) -/

/-- An action as the batching reducer wrapper sees it: a type, a payload that
is an ordered list of inner actions (read only for the two batch markers), and
opaque further content `data` that concrete reducers may inspect. -/
inductive RAction where
  | mk (type : String) (payload : List RAction) (data : String)

def RAction.type : RAction → String
  | RAction.mk t _ _ => t

def RAction.payload : RAction → List RAction
  | RAction.mk _ p _ => p

def RAction.data : RAction → String
  | RAction.mk _ _ d => d

/-- `batchActions(payload)` (lines 215-218): `{type: BATCH_ACTIONS, payload}`. -/
def batchActions (payload : List RAction) : RAction :=
  RAction.mk BATCH_ACTIONS payload ""

/-- `enableBatching(reducer)` (lines 363-371): for the two batch markers fold
the reducer left-to-right over `action.payload` (JS `Array.prototype.reduce`
with initial value `state`); any other action is passed to the reducer
unchanged. -/
def enableBatching {S : Type} (reducer : S → RAction → S) : S → RAction → S :=
  fun state action =>
    if action.type = BATCH ∨ action.type = BATCH_ACTIONS then
      action.payload.foldl reducer state
    else reducer state action

/-! ## select (src/index.ts lines 235-254) -/

/-- The effect descriptor built by `select(fn, ...args)` (lines 236-245):
`{type: SELECT, fn, args}`.  The variadic tail is the `args` list. -/
structure SelectDescr (σ α β : Type) where
  type : String
  fn : σ → List α → β
  args : List α

def select {σ α β : Type} (fn : σ → List α → β) (args : List α) : SelectDescr σ α β :=
  { type := "SELECT", fn := fn, args := args }

/-- `selectEffect({fn, args}, getState)` (lines 247-254): read the state, call
`fn(state, ...args)`, resolve with the result. -/
def selectEffect {σ α β : Type} (d : SelectDescr σ α β) (getState : Unit → σ) : β :=
  let state := getState ()
  d.fn state d.args

/-! ## Basic facts about the EventEmitter registry -/

namespace EventEmitter

theorem getListeners_of_has_false (st : EventEmitter) (t : String)
    (h : st.has t = false) : st.getListeners t = [] := by
  induction st with
  | nil => rfl
  | cons e rest ih =>
    simp only [has, Bool.or_eq_false_iff, decide_eq_false_iff_not] at h
    simp [getListeners, h.1, ih h.2]

theorem has_of_getListeners_ne_nil (st : EventEmitter) (t : String)
    (h : st.getListeners t ≠ []) : st.has t = true := by
  induction st with
  | nil => simp [getListeners] at h
  | cons e rest ih =>
    by_cases he : e.1 = t
    · simp [has, he]
    · simp only [getListeners, if_neg he] at h
      simp [has, he, ih h]

theorem getListeners_sub_self (st : EventEmitter) (t : String) (c : Cb) :
    (st.sub t c).getListeners t = st.getListeners t ++ [c] := by
  induction st with
  | nil => simp [sub, getListeners]
  | cons e rest ih =>
    by_cases h : e.1 = t
    · simp [sub, getListeners, h]
    · simp [sub, getListeners, h, ih]

theorem getListeners_sub_other (st : EventEmitter) (t u : String) (c : Cb)
    (h : u ≠ t) : (st.sub t c).getListeners u = st.getListeners u := by
  induction st with
  | nil => simp [sub, getListeners, Ne.symm h]
  | cons e rest ih =>
    by_cases he : e.1 = t
    · simp [sub, getListeners, he, Ne.symm h]
    · by_cases heu : e.1 = u
      · simp [sub, getListeners, he, heu, h]
      · simp [sub, getListeners, he, heu, ih]

theorem getListeners_unsubType_self (st : EventEmitter) (t : String) :
    (st.unsubType t).getListeners t = [] := by
  induction st with
  | nil => rfl
  | cons e rest ih =>
    by_cases h : e.1 = t
    · simp [unsubType, getListeners, h]
    · simp [unsubType, getListeners, h, ih]

theorem getListeners_unsubType_other (st : EventEmitter) (t u : String)
    (h : u ≠ t) : (st.unsubType t).getListeners u = st.getListeners u := by
  induction st with
  | nil => rfl
  | cons e rest ih =>
    by_cases he : e.1 = t
    · simp [unsubType, getListeners, he, Ne.symm h]
    · by_cases heu : e.1 = u
      · simp [unsubType, getListeners, he, heu, h]
      · simp [unsubType, getListeners, he, heu, ih]

theorem runCbs_log {α : Type} (data : α) (cs : List Cb) (st : EventEmitter) :
    (runCbs data cs st).2 = cs.map (fun c => (c.1, data)) := by
  induction cs generalizing st with
  | nil => rfl
  | cons c cs ih => simp [runCbs, ih]

theorem emit_log {α : Type} (st : EventEmitter) (t : String) (data : α) :
    (st.emit t data).2 = (st.getListeners t).map (fun c => (c.1, data)) := by
  by_cases h : st.has t = true
  · simp [emit, h, runCbs_log]
  · have h2 : st.getListeners t = [] :=
      getListeners_of_has_false st t (by simpa using h)
    simp [emit, h, h2]

theorem emit_getListeners_self {α : Type} (st : EventEmitter) (t : String) (data : α) :
    ((st.emit t data).1).getListeners t = [] := by
  by_cases h : st.has t = true
  · simp [emit, h, getListeners_unsubType_self]
  · have h2 : st.getListeners t = [] :=
      getListeners_of_has_false st t (by simpa using h)
    simp [emit, h, h2]

end EventEmitter

/-! ## Claim theorems: emitter invariants -/

/-- C2: for every action type `T` and every emission of `T`, all waiters
registered for `T` before the emission are invoked synchronously in
registration order and all receive the emitted action; afterwards the registry
entry for `T` is cleared, so each registered waiter is consumed at most once
per emission, and a waiter registered after the emission is the one woken by
the next emission of `T`. -/
theorem claim_C2 {α : Type} (st : EventEmitter) (T : String) (a b : α) (c : Cb) :
    (st.emit T a).2 = (st.getListeners T).map (fun cb => (cb.1, a)) ∧
    ((st.emit T a).1).getListeners T = [] ∧
    ((((st.emit T a).1).sub T c).emit T b).2 = [(c.1, b)] := by
  refine ⟨EventEmitter.emit_log st T a, EventEmitter.emit_getListeners_self st T a, ?_⟩
  rw [EventEmitter.emit_log, EventEmitter.getListeners_sub_self,
    EventEmitter.emit_getListeners_self]
  rfl

/-- C10: `emit(T, data)` invokes exactly the listeners registered for `T` when
the emission starts and then resets the entry for `T` to empty; a listener
subscribed for `T` from within an invoked callback during that same emission
is removed without ever being invoked (last conjunct: callback `0` subscribes
callback `1` for `"T"` mid-emission, yet only `0` is invoked and the entry
ends empty). -/
theorem claim_C10 {α : Type} (st : EventEmitter) (T : String) (a : α) :
    (st.emit T a).2.map Prod.fst = (st.getListeners T).map Prod.fst ∧
    ((st.emit T a).1).getListeners T = [] ∧
    (∀ j, j ∉ (st.getListeners T).map Prod.fst → ∀ x : α, (j, x) ∉ (st.emit T a).2) ∧
    EventEmitter.emit
        (EventEmitter.sub EventEmitter.empty "T" (0, CbBody.subThen "T" 1 CbBody.done CbBody.done))
        "T" a
      = ([("T", [])], [(0, a)]) := by
  refine ⟨?_, EventEmitter.emit_getListeners_self st T a, ?_, rfl⟩
  · rw [EventEmitter.emit_log]
    simp [List.map_map]
  · intro j hj x hmem
    rw [EventEmitter.emit_log] at hmem
    simp only [List.mem_map] at hmem
    obtain ⟨cb, hcb, hjx⟩ := hmem
    apply hj
    simp only [List.mem_map]
    exact ⟨cb, hcb, congrArg Prod.fst hjx⟩

/-- C10 witness: an identity absent from the snapshot of listeners for `"T"`
is never found in the invocation log of an emission of `"T"`. -/
theorem claim_C10_witness :
    (5 ∉ ((EventEmitter.sub EventEmitter.empty "T" (0, CbBody.done)).getListeners
        "T").map Prod.fst) ∧
    (5, 7) ∉ (EventEmitter.emit
        (EventEmitter.sub EventEmitter.empty "T" (0, CbBody.done)) "T" (7 : Nat)).2 :=
  ⟨by decide,
   (claim_C10 (EventEmitter.sub EventEmitter.empty "T" (0, CbBody.done)) "T"
     (7 : Nat)).2.2.1 5 (by decide) 7⟩

/-! ## Claim theorems: createEffect and select -/

/-- C7: `createEffect(f, 'one', 'two')` equals
`{type: '@@redux-cofx/EFFECT', payload: {fn: f, args: ['one', 'two']}}`
(with no `cancel` field). -/
theorem claim_C7 {F : Type} (f : F) :
    createEffect (CEArg.func f) ["one", "two"]
      = { type := "@@redux-cofx/EFFECT",
          payload := { fn := f, args := some ["one", "two"], cancel := none } } := rfl

/-- C8: `select(sel, ...args)` handled by `selectEffect` resolves with
`sel(currentState, ...args)` where `currentState` is read from the store at
handling time; on a store whose state is `'hi there'` with an identity
selector it yields `'hi there'`. -/
theorem claim_C8 {σ α β : Type} (sel : σ → List α → β) (args : List α)
    (getState : Unit → σ) :
    selectEffect (select sel args) getState = sel (getState ()) args ∧
    selectEffect (select (fun (s : String) (_ : List String) => s) [])
        (fun _ => "hi there") = "hi there" :=
  ⟨rfl, rfl⟩

/-! ## Claim theorems: batch effect and batching reducer -/

/-- C4: the batch handler partitions its input into non-effect and effect
entries (the two filter predicates are exact complements), dispatches the
non-effect entries together as one bundle action followed by each effect
action individually; both groups keep the input order (they are sublists of
the input) and together exhaust it (their concatenation is a permutation of
the input).  The handler returns after these dispatch calls, not after the
spawned effects complete. -/
theorem claim_C4 (actions : List (Option BAct)) :
    batchEffect actions
      = BOut.bundle (actions.filter isNormalEntry)
        :: (actions.filter isEffectEntry).map BOut.act ∧
    (∀ oa : Option BAct, isNormalEntry oa = !(isEffectEntry oa)) ∧
    (actions.filter isNormalEntry).Sublist actions ∧
    (actions.filter isEffectEntry).Sublist actions ∧
    (actions.filter isNormalEntry ++ actions.filter isEffectEntry).Perm actions := by
  refine ⟨rfl, ?_, List.filter_sublist actions, List.filter_sublist actions, ?_⟩
  · intro oa
    cases oa with
    | none => rfl
    | some a => simp [isNormalEntry, isEffectEntry]
  · have h : actions.filter isEffectEntry
        = actions.filter (fun oa => !(isNormalEntry oa)) := by
      apply List.filter_congr
      intro x _
      cases x with
      | none => rfl
      | some a => simp [isNormalEntry, isEffectEntry]
    rw [h]
    exact List.filter_append_perm isNormalEntry actions

/-- C9: the bundle of plain actions is dispatched unconditionally and first —
even when every input entry is an effect action, in which case the bundle
carries the empty payload — and `null`/`undefined` entries (modelled `none`)
are classified as non-effect and all end up in the bundle payload. -/
theorem claim_C9 (actions : List (Option BAct)) :
    (batchEffect actions).head? = some (BOut.bundle (actions.filter isNormalEntry)) ∧
    (actions.filter isNormalEntry).count (none : Option BAct) = actions.count none ∧
    ((∀ oa ∈ actions, isEffectEntry oa = true) →
      batchEffect actions = BOut.bundle [] :: actions.map BOut.act) := by
  refine ⟨rfl, List.count_filter rfl, ?_⟩
  intro h
  have h1 : actions.filter isNormalEntry = [] := by
    rw [List.filter_eq_nil_iff]
    intro oa hoa
    cases oa with
    | none =>
      have hfalse := h none hoa
      simp [isEffectEntry] at hfalse
    | some a =>
      have := h (some a) hoa
      simp only [isEffectEntry] at this
      simp [isNormalEntry, of_decide_eq_true this]
  have h2 : actions.filter isEffectEntry = actions := List.filter_eq_self.mpr h
  simp [batchEffect, h1, h2]

/-- C9 witness: a one-element, all-effect input produces the empty bundle
followed by the effect action. -/
theorem claim_C9_witness :
    (∀ oa ∈ [some (BAct.mk "@@redux-cofx/EFFECT" "e")], isEffectEntry oa = true) ∧
    batchEffect [some (BAct.mk "@@redux-cofx/EFFECT" "e")]
      = BOut.bundle [] :: [some (BAct.mk "@@redux-cofx/EFFECT" "e")].map BOut.act :=
  ⟨by decide, (claim_C9 [some (BAct.mk "@@redux-cofx/EFFECT" "e")]).2.2 (by decide)⟩

/-- C5: `enableBatching(r)` applied to an action whose type is one of the two
batch markers folds `r` left-to-right over the action's payload starting from
the current state — so dispatching `batchActions [x, y]` folds `x` then `y`
through the reducer in one state transition — and passes every other action
through to `r` unchanged. -/
theorem claim_C5 {S : Type} (r : S → RAction → S) (s : S) :
    (∀ a : RAction, a.type = BATCH ∨ a.type = BATCH_ACTIONS →
      enableBatching r s a = a.payload.foldl r s) ∧
    (∀ a : RAction, a.type ≠ BATCH → a.type ≠ BATCH_ACTIONS →
      enableBatching r s a = r s a) ∧
    (∀ x y : RAction, enableBatching r s (batchActions [x, y]) = r (r s x) y) := by
  refine ⟨?_, ?_, ?_⟩
  · intro a h
    simp [enableBatching, h]
  · intro a h1 h2
    simp [enableBatching, h1, h2]
  · intro x y
    simp [enableBatching, batchActions, RAction.type, RAction.payload]

/-- C5 witness: a non-marker action is passed through, and a two-action
`batchActions` bundle is folded in one transition. -/
theorem claim_C5_witness :
    ((RAction.mk "X" [] "y").type ≠ BATCH) ∧
    ((RAction.mk "X" [] "y").type ≠ BATCH_ACTIONS) ∧
    enableBatching (fun (s : String) (a : RAction) => s ++ a.data) ""
      (RAction.mk "X" [] "y") = "y" ∧
    enableBatching (fun (s : String) (a : RAction) => s ++ a.data) ""
      (batchActions [RAction.mk "A" [] "u", RAction.mk "B" [] "v"]) = "uv" := by
  refine ⟨by decide, by decide, ?_, ?_⟩
  · have h := (claim_C5 (fun (s : String) (a : RAction) => s ++ a.data) "").2.1
      (RAction.mk "X" [] "y") (by decide) (by decide)
    simpa using h
  · have h := (claim_C5 (fun (s : String) (a : RAction) => s ++ a.data) "").2.2
      (RAction.mk "A" [] "u") (RAction.mk "B" [] "v")
    simpa using h

/-! ## Middleware trace lemmas -/

theorem actionHandler_events (extraArg : String)
    (task : Nat → List String → Option Nat → Except String String)
    (st : EventEmitter) (a? : Option MAction) :
    (actionHandler extraArg task st a?).2.1
      = (wakePhase st a?).2 ++ (handlePhase extraArg task a?).1 := rfl

theorem actionHandler_state (extraArg : String)
    (task : Nat → List String → Option Nat → Except String String)
    (st : EventEmitter) (a? : Option MAction) :
    (actionHandler extraArg task st a?).1 = (wakePhase st a?).1 := rfl

theorem actionHandler_res (extraArg : String)
    (task : Nat → List String → Option Nat → Except String String)
    (st : EventEmitter) (a? : Option MAction) :
    (actionHandler extraArg task st a?).2.2 = (handlePhase extraArg task a?).2 := rfl

theorem wakePhase_wakes (st : EventEmitter) (a? : Option MAction) :
    ∀ e ∈ (wakePhase st a?).2, isWake e = true := by
  intro e he
  cases a? with
  | none => simp [wakePhase] at he
  | some a =>
    simp only [wakePhase] at he
    split at he
    · simp only [List.mem_map] at he
      obtain ⟨pp, hp, hpe⟩ := he
      rw [← hpe]
      rfl
    · simp at he

theorem wakePhase_filter_isDisp (st : EventEmitter) (a? : Option MAction) :
    ((wakePhase st a?).2).filter isDisp = [] := by
  rw [List.filter_eq_nil_iff]
  intro e he
  have h := wakePhase_wakes st a? e he
  cases e <;> simp_all [isWake, isDisp]

theorem wakePhase_filter_isSubmit (st : EventEmitter) (a? : Option MAction) :
    ((wakePhase st a?).2).filter isSubmit = [] := by
  rw [List.filter_eq_nil_iff]
  intro e he
  have h := wakePhase_wakes st a? e he
  cases e <;> simp_all [isWake, isSubmit]

/-! ## Claim theorems: middleware error path and invocation -/

/-- C1: when the task run of a create-effect action rejects with value `E`,
the handler dispatches exactly one standardized error action
`{type: '@@redux-cofx/ERROR', payload: E}` and the promise returned from
dispatch rejects with the same `E`. -/
theorem claim_C1 (extraArg : String)
    (task : Nat → List String → Option Nat → Except String String)
    (st : EventEmitter) (a : MAction) (E : String)
    (htype : a.type = EFFECT)
    (herr : task a.payload.fn (a.payload.args.getD [] ++ [extraArg]) a.payload.cancel
        = Except.error E) :
    (actionHandler extraArg task st (some a)).2.1.filter isDisp
      = [MEv.disp (error E)] ∧
    error E = { type := "@@redux-cofx/ERROR", payload := E } ∧
    (actionHandler extraArg task st (some a)).2.2
      = MRes.promise (Except.error E) := by
  have hh : handlePhase extraArg task (some a)
      = ([MEv.submit a.payload.fn (a.payload.args.getD [] ++ [extraArg]) a.payload.cancel,
          MEv.disp (error E)], MRes.promise (Except.error E)) := by
    simp [handlePhase, htype, herr]
  refine ⟨?_, rfl, ?_⟩
  · rw [actionHandler_events, List.filter_append, wakePhase_filter_isDisp, hh]
    simp [isDisp, isSubmit, List.filter_cons]
  · rw [actionHandler_res, hh]

/-- C1 witness: a task that rejects with `'some error'` leads to exactly the
dispatch of `{type: '@@redux-cofx/ERROR', payload: 'some error'}` and a
rejected result. -/
theorem claim_C1_witness :
    ((MAction.mk "@@redux-cofx/EFFECT" (EffObj.mk 1 (some []) none) "").type
        = EFFECT) ∧
    ((fun (_ : Nat) (_ : List String) (_ : Option Nat) =>
        (Except.error "some error" : Except String String)) 1
        ((some ([] : List String)).getD [] ++ ["x"]) none
      = Except.error "some error") ∧
    ((actionHandler "x"
        (fun _ _ _ => (Except.error "some error" : Except String String))
        EventEmitter.empty
        (some (MAction.mk "@@redux-cofx/EFFECT"
          (EffObj.mk 1 (some []) none) ""))).2.1.filter isDisp
      = [MEv.disp (error "some error")] ∧
     error "some error" = { type := "@@redux-cofx/ERROR", payload := "some error" } ∧
     (actionHandler "x"
        (fun _ _ _ => (Except.error "some error" : Except String String))
        EventEmitter.empty
        (some (MAction.mk "@@redux-cofx/EFFECT"
          (EffObj.mk 1 (some []) none) ""))).2.2
      = MRes.promise (Except.error "some error")) :=
  ⟨rfl, rfl, claim_C1 "x"
    (fun _ _ _ => (Except.error "some error" : Except String String))
    EventEmitter.empty
    (MAction.mk "@@redux-cofx/EFFECT" (EffObj.mk 1 (some []) none) "")
    "some error" rfl rfl⟩

/-- C6: dispatching a create-effect action wrapping function `f` with declared
argument list `as` submits exactly one task run, whose function is `f` and
whose argument list is exactly `as` with the extra argument bound at
middleware creation appended after it (`[...args, extraArg]`, line 353); the
second conjunct states the same for an arbitrary `{fn, args?, cancel?}`
payload (absent `args` defaults to `[]`). -/
theorem claim_C6 (extraArg : String)
    (task : Nat → List String → Option Nat → Except String String)
    (st : EventEmitter) (f : Nat) (as : List String) (d : String)
    (p : EffObj Nat String) :
    (actionHandler extraArg task st
        (some (MAction.mk EFFECT (createEffect (CEArg.func f) as).payload d))).2.1.filter
        isSubmit
      = [MEv.submit f (as ++ [extraArg]) none] ∧
    (actionHandler extraArg task st (some (MAction.mk EFFECT p d))).2.1.filter isSubmit
      = [MEv.submit p.fn (p.args.getD [] ++ [extraArg]) p.cancel] := by
  have key : ∀ q : EffObj Nat String,
      (actionHandler extraArg task st (some (MAction.mk EFFECT q d))).2.1.filter isSubmit
        = [MEv.submit q.fn (q.args.getD [] ++ [extraArg]) q.cancel] := by
    intro q
    rw [actionHandler_events, List.filter_append, wakePhase_filter_isSubmit]
    cases htask : task q.fn (q.args.getD [] ++ [extraArg]) q.cancel with
    | error e => simp [handlePhase, htask, isSubmit, isDisp, List.filter_cons]
    | ok v => simp [handlePhase, htask, isSubmit, List.filter_cons]
  exact ⟨key (createEffect (CEArg.func f) as).payload, key p⟩

/-! ## Identity-freeness bookkeeping for the TAKE claim -/

theorem cbFree_fst {id : Nat} {c : Cb} (h : cbFree id c = true) :
    (c.1 == id) = false := by
  simp only [cbFree, Bool.and_eq_true] at h
  simpa using h.1

theorem cbFree_body {id : Nat} {c : Cb} (h : cbFree id c = true) :
    c.2.hasId id = false := by
  simp only [cbFree, Bool.and_eq_true] at h
  simpa using h.2

theorem entFree_mem {id : Nat} {l : List Cb} (h : entFree id l = true) :
    ∀ c ∈ l, cbFree id c = true := by
  intro c hc
  simpa using List.all_eq_true.mp h c hc

theorem entFree_append {id : Nat} {l1 l2 : List Cb} (h1 : entFree id l1 = true)
    (h2 : entFree id l2 = true) : entFree id (l1 ++ l2) = true := by
  simp only [entFree, List.all_append, Bool.and_eq_true]
  exact ⟨h1, h2⟩

theorem filter_id_of_entFree {id : Nat} {l : List Cb} (h : entFree id l = true) :
    l.filter (fun c => c.1 == id) = [] := by
  rw [List.filter_eq_nil_iff]
  intro c hc
  simp [cbFree_fst (entFree_mem h c hc)]

theorem bodies_free_of_entFree {id : Nat} {l : List Cb} (h : entFree id l = true) :
    ∀ c ∈ l, c.2.hasId id = false :=
  fun c hc => cbFree_body (entFree_mem h c hc)

theorem grows_refl (id : Nat) (st : EventEmitter) : Grows id st st :=
  fun _ => ⟨[], by simp, rfl⟩

theorem grows_trans {id : Nat} {s1 s2 s3 : EventEmitter}
    (h1 : Grows id s1 s2) (h2 : Grows id s2 s3) : Grows id s1 s3 := by
  intro t
  obtain ⟨e1, he1, hf1⟩ := h1 t
  obtain ⟨e2, he2, hf2⟩ := h2 t
  exact ⟨e1 ++ e2, by rw [he2, he1, List.append_assoc], entFree_append hf1 hf2⟩

theorem grows_sub {id : Nat} (st : EventEmitter) (t : String) (c : Cb)
    (h : cbFree id c = true) : Grows id st (st.sub t c) := by
  intro u
  by_cases hu : u = t
  · subst hu
    exact ⟨[c], EventEmitter.getListeners_sub_self st u c, by simp [entFree, h]⟩
  · exact ⟨[], by simp [EventEmitter.getListeners_sub_other st t u c hu], rfl⟩

theorem grows_runBody {id : Nat} (b : CbBody) :
    ∀ st : EventEmitter, b.hasId id = false →
      Grows id st (EventEmitter.runBody b st) := by
  induction b with
  | done => intro st _; exact grows_refl id st
  | subThen t j bb rest ihb ihrest =>
    intro st h
    simp only [CbBody.hasId, Bool.or_eq_false_iff] at h
    refine grows_trans (grows_sub st t (j, bb) ?_) (ihrest _ h.2)
    simp [cbFree, h.1.1, h.1.2]

theorem grows_runCbs {α : Type} {id : Nat} (data : α) (cs : List Cb) :
    ∀ st : EventEmitter, (∀ c ∈ cs, c.2.hasId id = false) →
      Grows id st (EventEmitter.runCbs data cs st).1 := by
  induction cs with
  | nil => intro st _; exact grows_refl id st
  | cons c cs ih =>
    intro st h
    simp only [EventEmitter.runCbs]
    exact grows_trans (grows_runBody c.2 st (h c (List.mem_cons_self c cs)))
      (ih _ (fun x hx => h x (List.mem_cons_of_mem c hx)))

theorem emit_grows {α : Type} {id : Nat} (st : EventEmitter) (t : String) (data : α)
    (h : ∀ c ∈ st.getListeners t, c.2.hasId id = false) :
    ∀ u, u ≠ t →
      ∃ ex, ((st.emit t data).1).getListeners u = st.getListeners u ++ ex ∧
        entFree id ex = true := by
  intro u hu
  by_cases hh : st.has t = true
  · obtain ⟨ex, hex, hfree⟩ := grows_runCbs data (st.getListeners t) st h u
    refine ⟨ex, ?_, hfree⟩
    simp only [EventEmitter.emit, hh, if_true]
    rw [EventEmitter.getListeners_unsubType_other _ _ _ hu]
    exact hex
  · refine ⟨[], ?_, rfl⟩
    simp [EventEmitter.emit, hh]

/-! ## Wake-trace lemmas -/

theorem wakesOf_append (id : Nat) (l1 l2 : List MEv) :
    wakesOf id (l1 ++ l2) = wakesOf id l1 ++ wakesOf id l2 := by
  simp [wakesOf]

theorem wakesOf_map_wake (id : Nat) (a : MAction) (cs : List Cb) :
    wakesOf id (cs.map (fun c => MEv.wake c.1 a))
      = (cs.filter (fun c => c.1 == id)).map (fun _ => a) := by
  induction cs with
  | nil => rfl
  | cons c cs ih =>
    by_cases h : (c.1 == id) = true
    · simp only [List.map_cons, wakesOf, List.filterMap_cons, wakeData, h, if_true,
        List.filter_cons]
      exact congrArg (List.cons a) ih
    · have h2 : (c.1 == id) = false := by simpa using h
      simp only [List.map_cons, wakesOf, List.filterMap_cons, wakeData, h2,
        Bool.false_eq_true, if_false, List.filter_cons]
      exact ih

theorem handlePhase_no_wakes (id : Nat) (extraArg : String)
    (task : Nat → List String → Option Nat → Except String String)
    (a? : Option MAction) : wakesOf id (handlePhase extraArg task a?).1 = [] := by
  cases a? with
  | none => rfl
  | some a =>
    simp only [handlePhase]
    split
    · split <;> rfl
    · rfl

theorem handlePhase_not_wake (extraArg : String)
    (task : Nat → List String → Option Nat → Except String String)
    (a? : Option MAction) :
    ∀ e ∈ (handlePhase extraArg task a?).1, isWake e = false := by
  intro e he
  cases a? with
  | none =>
    simp only [handlePhase, List.mem_singleton] at he
    rw [he]
    rfl
  | some a =>
    simp only [handlePhase] at he
    split at he
    · split at he
      · simp only [List.mem_cons, List.mem_singleton] at he
        rcases he with he | he | he
        · rw [he]; rfl
        · rw [he]; rfl
        · simp at he
      · simp only [List.mem_singleton] at he
        rw [he]
        rfl
    · simp only [List.mem_singleton] at he
      rw [he]
      rfl

theorem wakePhase_none_eq (st : EventEmitter) : wakePhase st none = (st, []) := rfl

theorem wakePhase_no_fire (st : EventEmitter) (a : MAction)
    (hc : ¬(a.type ≠ "" ∧ st.has a.type = true)) :
    wakePhase st (some a) = (st, []) := by
  simp only [wakePhase, if_neg hc]

theorem wakePhase_fire_events (st : EventEmitter) (a : MAction)
    (hc : a.type ≠ "" ∧ st.has a.type = true) :
    (wakePhase st (some a)).2
        = (st.getListeners a.type).map (fun c => MEv.wake c.1 a) ∧
    (wakePhase st (some a)).1 = (st.emit a.type a).1 := by
  have h1 : wakePhase st (some a)
      = ((st.emit a.type a).1,
         (st.emit a.type a).2.map (fun p => MEv.wake p.1 p.2)) := by
    simp only [wakePhase, if_pos hc]
  constructor
  · rw [h1, EventEmitter.emit_log, List.map_map]
    rfl
  · rw [h1]

/-! ## Invariant preservation across dispatches -/

theorem wakePhase_gfree {id : Nat} (st : EventEmitter) (a? : Option MAction)
    (h : GFree id st) :
    wakesOf id (wakePhase st a?).2 = [] ∧ GFree id (wakePhase st a?).1 := by
  cases a? with
  | none => exact ⟨rfl, h⟩
  | some a =>
    by_cases hc : a.type ≠ "" ∧ st.has a.type = true
    · obtain ⟨hev, hst⟩ := wakePhase_fire_events st a hc
      constructor
      · rw [hev, wakesOf_map_wake, filter_id_of_entFree (h a.type)]
        rfl
      · rw [hst]
        intro u
        by_cases hu : u = a.type
        · subst hu
          rw [EventEmitter.emit_getListeners_self]
          rfl
        · obtain ⟨ex, hex, hfree⟩ :=
            emit_grows st a.type a (bodies_free_of_entFree (h a.type)) u hu
          rw [hex]
          exact entFree_append (h u) hfree
    · rw [wakePhase_no_fire st a hc]
      exact ⟨rfl, h⟩

theorem wakePhase_greg_other {id : Nat} {T : String} (st : EventEmitter)
    (a : MAction) (hreg : GReg id T st) (hne : a.type ≠ T) :
    wakesOf id (wakePhase st (some a)).2 = [] ∧
    GReg id T (wakePhase st (some a)).1 := by
  obtain ⟨hfilter, hbody, hother⟩ := hreg
  by_cases hc : a.type ≠ "" ∧ st.has a.type = true
  · obtain ⟨hev, hst⟩ := wakePhase_fire_events st a hc
    have hsnap : entFree id (st.getListeners a.type) = true := hother a.type hne
    have hgrow := emit_grows st a.type a (bodies_free_of_entFree hsnap)
    constructor
    · rw [hev, wakesOf_map_wake, filter_id_of_entFree hsnap]
      rfl
    · rw [hst]
      refine ⟨?_, ?_, ?_⟩
      · obtain ⟨ex, hex, hfree⟩ := hgrow T (fun hh => hne hh.symm)
        rw [hex, List.filter_append, hfilter, filter_id_of_entFree hfree,
          List.append_nil]
      · obtain ⟨ex, hex, hfree⟩ := hgrow T (fun hh => hne hh.symm)
        rw [hex]
        intro c hc2
        rcases List.mem_append.mp hc2 with hmem | hmem
        · exact hbody c hmem
        · exact bodies_free_of_entFree hfree c hmem
      · intro u hu
        by_cases hua : u = a.type
        · subst hua
          rw [EventEmitter.emit_getListeners_self]
          rfl
        · obtain ⟨ex, hex, hfree⟩ := hgrow u hua
          rw [hex]
          exact entFree_append (hother u hu) hfree
  · rw [wakePhase_no_fire st a hc]
    exact ⟨rfl, hfilter, hbody, hother⟩

theorem wakePhase_greg_fire {id : Nat} {T : String} (st : EventEmitter)
    (a : MAction) (hreg : GReg id T st) (heq : a.type = T) (hT : T ≠ "") :
    wakesOf id (wakePhase st (some a)).2 = [a] ∧
    GFree id (wakePhase st (some a)).1 := by
  obtain ⟨hfilter, hbody, hother⟩ := hreg
  have hnil : st.getListeners T ≠ [] := by
    intro hnil
    rw [hnil] at hfilter
    simp at hfilter
  have hc : a.type ≠ "" ∧ st.has a.type = true := by
    rw [heq]
    exact ⟨hT, EventEmitter.has_of_getListeners_ne_nil st T hnil⟩
  obtain ⟨hev, hst⟩ := wakePhase_fire_events st a hc
  have hbody2 : ∀ c ∈ st.getListeners a.type, c.2.hasId id = false := by
    rw [heq]
    exact hbody
  constructor
  · rw [hev, heq, wakesOf_map_wake, hfilter]
    rfl
  · rw [hst]
    intro u
    by_cases hu : u = a.type
    · subst hu
      rw [EventEmitter.emit_getListeners_self]
      rfl
    · obtain ⟨ex, hex, hfree⟩ := emit_grows st a.type a hbody2 u hu
      rw [hex]
      refine entFree_append (hother u ?_) hfree
      rw [heq] at hu
      exact hu

theorem step_gfree {id : Nat} (extraArg : String)
    (task : Nat → List String → Option Nat → Except String String)
    (st : EventEmitter) (a? : Option MAction) (h : GFree id st) :
    wakesOf id (actionHandler extraArg task st a?).2.1 = [] ∧
    GFree id (actionHandler extraArg task st a?).1 := by
  obtain ⟨h1, h2⟩ := wakePhase_gfree st a? h
  constructor
  · rw [actionHandler_events, wakesOf_append, h1,
      handlePhase_no_wakes id extraArg task a?]
    rfl
  · rw [actionHandler_state]
    exact h2

theorem seq_gfree {id : Nat} (extraArg : String)
    (task : Nat → List String → Option Nat → Except String String)
    (acts : List (Option MAction)) :
    ∀ st : EventEmitter, GFree id st →
      wakesOf id (dispatchSeq extraArg task st acts).2 = [] ∧
      GFree id (dispatchSeq extraArg task st acts).1 := by
  induction acts with
  | nil => intro st h; exact ⟨rfl, h⟩
  | cons a rest ih =>
    intro st h
    obtain ⟨h1, h2⟩ := step_gfree extraArg task st a h
    obtain ⟨h3, h4⟩ := ih _ h2
    constructor
    · simp only [dispatchSeq]
      rw [wakesOf_append, h1, h3]
      rfl
    · simp only [dispatchSeq]
      exact h4

theorem seq_greg {id : Nat} {T : String} (extraArg : String)
    (task : Nat → List String → Option Nat → Except String String)
    (hT : T ≠ "") (acts : List (Option MAction)) :
    ∀ st : EventEmitter, GReg id T st →
      wakesOf id (dispatchSeq extraArg task st acts).2
        = (firstOfType T acts).toList := by
  induction acts with
  | nil => intro st _; rfl
  | cons a? rest ih =>
    intro st h
    cases a? with
    | none =>
      have hw : wakesOf id (actionHandler extraArg task st none).2.1 = [] := by
        rw [actionHandler_events, wakesOf_append,
          handlePhase_no_wakes id extraArg task none]
        rfl
      simp only [dispatchSeq]
      rw [wakesOf_append, hw]
      have hstate : (actionHandler extraArg task st none).1 = st := rfl
      rw [hstate, ih st h]
      rfl
    | some a =>
      by_cases heq : a.type = T
      · obtain ⟨h1, h2⟩ := wakePhase_greg_fire st a h heq hT
        have h2s : GFree id (actionHandler extraArg task st (some a)).1 := by
          rw [actionHandler_state]
          exact h2
        obtain ⟨h3, _⟩ := seq_gfree extraArg task rest _ h2s
        simp only [dispatchSeq]
        rw [wakesOf_append, actionHandler_events, wakesOf_append, h1,
          handlePhase_no_wakes id extraArg task (some a), h3]
        simp [firstOfType, heq]
      · obtain ⟨h1, h2⟩ := wakePhase_greg_other st a h heq
        have h2s : GReg id T (actionHandler extraArg task st (some a)).1 := by
          rw [actionHandler_state]
          exact h2
        simp only [dispatchSeq]
        rw [wakesOf_append, actionHandler_events, wakesOf_append, h1,
          handlePhase_no_wakes id extraArg task (some a), ih _ h2s]
        simp [firstOfType, heq]

theorem IdFree_to_GFree {id : Nat} :
    ∀ st : EventEmitter, IdFree id st → GFree id st := by
  intro st
  induction st with
  | nil => intro _ t; rfl
  | cons e rest ih =>
    intro h t
    by_cases he : e.1 = t
    · have h2 := h e (List.mem_cons_self e rest)
      simpa [EventEmitter.getListeners, he] using h2
    · simp only [EventEmitter.getListeners, if_neg he]
      exact ih (fun x hx => h x (List.mem_cons_of_mem e hx)) t

theorem takeEffect_greg {id : Nat} (T : String) (st : EventEmitter)
    (h : GFree id st) : GReg id T (takeEffect st T id) := by
  refine ⟨?_, ?_, ?_⟩
  · rw [takeEffect, EventEmitter.getListeners_sub_self, List.filter_append,
      filter_id_of_entFree (h T)]
    simp
  · intro c hc
    rw [takeEffect, EventEmitter.getListeners_sub_self] at hc
    rcases List.mem_append.mp hc with hmem | hmem
    · exact bodies_free_of_entFree (h T) c hmem
    · simp only [List.mem_singleton] at hmem
      rw [hmem]
      rfl
  · intro t ht
    rw [takeEffect, EventEmitter.getListeners_sub_other st T t _ ht]
    exact h t

/-! ## Claim theorems: TAKE -/

/-- C3 (amended: `T` nonempty): a TAKE effect registered for a nonempty action
type `T` — a fresh callback `id` subscribed by `takeEffect` — receives no
action while the dispatches before registration are processed, and during the
dispatches after registration it is woken exactly once, with precisely the
first dispatched action of type `T` (and never, if no such action follows);
its promise therefore resolves with that first subsequent action and with no
earlier one.  Third conjunct: in every handler call the trace is the wake
events followed by the normal handling events, so waiters for a dispatched
action's type are woken before that action receives its normal handling. -/
theorem claim_C3 (extraArg : String)
    (task : Nat → List String → Option Nat → Except String String)
    (st0 : EventEmitter) (id : Nat) (T : String)
    (pre post : List (Option MAction))
    (hfree : IdFree id st0) (hT : T ≠ "") :
    wakesOf id (dispatchSeq extraArg task st0 pre).2 = [] ∧
    wakesOf id (dispatchSeq extraArg task
        (takeEffect (dispatchSeq extraArg task st0 pre).1 T id) post).2
      = (firstOfType T post).toList ∧
    (∀ (st : EventEmitter) (a? : Option MAction),
      (actionHandler extraArg task st a?).2.1
        = (wakePhase st a?).2 ++ (handlePhase extraArg task a?).1 ∧
      (∀ e ∈ (wakePhase st a?).2, isWake e = true) ∧
      (∀ e ∈ (handlePhase extraArg task a?).1, isWake e = false)) := by
  have hg : GFree id st0 := IdFree_to_GFree st0 hfree
  obtain ⟨hpre, hpost⟩ := seq_gfree extraArg task pre st0 hg
  refine ⟨hpre, ?_, ?_⟩
  · exact seq_greg extraArg task hT post _ (takeEffect_greg T _ hpost)
  · intro st a?
    exact ⟨actionHandler_events extraArg task st a?, wakePhase_wakes st a?,
      handlePhase_not_wake extraArg task a?⟩

/-- C3 witness: mirroring the repository's take test — a waiter for
`'SOMETHING'` registered after a `'BEFORE'` dispatch sees nothing from it, and
across the later dispatches `['ANOTHER', 'SOMETHING']` is woken exactly with
the `'SOMETHING'` action. -/
theorem claim_C3_witness :
    IdFree 0 EventEmitter.empty ∧
    ("SOMETHING" : String) ≠ "" ∧
    (wakesOf 0 (dispatchSeq "u" (fun _ _ _ => Except.ok "v") EventEmitter.empty
        [some (MAction.mk "BEFORE" (EffObj.mk 0 none none) "")]).2 = [] ∧
     wakesOf 0 (dispatchSeq "u" (fun _ _ _ => Except.ok "v")
        (takeEffect (dispatchSeq "u" (fun _ _ _ => Except.ok "v")
            EventEmitter.empty
            [some (MAction.mk "BEFORE" (EffObj.mk 0 none none) "")]).1
          "SOMETHING" 0)
        [some (MAction.mk "ANOTHER" (EffObj.mk 0 none none) ""),
         some (MAction.mk "SOMETHING" (EffObj.mk 0 none none) "nice")]).2
      = (firstOfType "SOMETHING"
          [some (MAction.mk "ANOTHER" (EffObj.mk 0 none none) ""),
           some (MAction.mk "SOMETHING" (EffObj.mk 0 none none) "nice")]).toList ∧
     (∀ (st : EventEmitter) (a? : Option MAction),
       (actionHandler "u" (fun _ _ _ => Except.ok "v") st a?).2.1
         = (wakePhase st a?).2 ++ (handlePhase "u" (fun _ _ _ => Except.ok "v") a?).1 ∧
       (∀ e ∈ (wakePhase st a?).2, isWake e = true) ∧
       (∀ e ∈ (handlePhase "u" (fun _ _ _ => Except.ok "v") a?).1, isWake e = false))) :=
  ⟨by intro e he; exact absurd he (List.not_mem_nil e), by decide,
   claim_C3 "u" (fun _ _ _ => Except.ok "v") EventEmitter.empty 0 "SOMETHING"
     [some (MAction.mk "BEFORE" (EffObj.mk 0 none none) "")]
     [some (MAction.mk "ANOTHER" (EffObj.mk 0 none none) ""),
      some (MAction.mk "SOMETHING" (EffObj.mk 0 none none) "nice")]
     (by intro e he; exact absurd he (List.not_mem_nil e)) (by decide)⟩

/-- C3 counterexample for the claim as stated (universal over the action type):
for the action type `""` the middleware's wake gate
`action && action.type && emitter.has(action.type)` (line 344) never fires,
because the empty string is falsy.  A waiter registered for `""` is never
woken although an action of type `""` is dispatched right after registration —
so the TAKE does not resolve with the first subsequently dispatched action of
its type. -/
theorem claim_C3_counterexample :
    (MAction.mk "" (EffObj.mk 0 none none) "x").type = "" ∧
    firstOfType "" [some (MAction.mk "" (EffObj.mk 0 none none) "x")]
      = some (MAction.mk "" (EffObj.mk 0 none none) "x") ∧
    wakesOf 0 (dispatchSeq "u" (fun _ _ _ => Except.ok "v")
        (takeEffect EventEmitter.empty "" 0)
        [some (MAction.mk "" (EffObj.mk 0 none none) "x")]).2 = [] := by
  refine ⟨rfl, rfl, ?_⟩
  rfl

end ReduxCofx
